import Mathlib

/-!
Shallow embedding of the theremin sound-pipeline sources
(autotune.c, waveform.c, sound_profiles.c).

C float arithmetic is idealized as exact real arithmetic; the 32-bit
unsigned phase accumulator is modelled as a natural number reduced
modulo 2^32 at each operation, exactly where the C code wraps.
-/

/-- Number of notes in the auto-tune note table (autotune.h, NUM_NOTES). -/
def NUM_NOTES : ℕ := 60

/-- Lowest clamp bound for note lookup, in Hz (autotune.h, FIRST_NOTE_FREQ = 65.41f). -/
noncomputable def FIRST_NOTE_FREQ : ℝ := 65.41

/-- Reference tuning pitch A4 in Hz (autotune.h, REFERENCE_A4 = 440.0f). -/
noncomputable def REFERENCE_A4 : ℝ := 440

/-- Audio sample rate in Hz (waveform.h, SAMPLE_RATE). -/
def SAMPLE_RATE : ℕ := 44100

/-- Phase accumulator modulus, 2 to the 32 (waveform.h, PHASE_SCALE). -/
def PHASE_SCALE : ℕ := 4294967296

/-- Equal-temperament note table built by autotune_init (autotune.c, lines 56-67):
note_table[i] = REFERENCE_A4 * 2 ^ ((i - 49) / 12). -/
noncomputable def note_table (note_num : ℕ) : ℝ :=
  REFERENCE_A4 * (2 : ℝ) ^ (((note_num : ℝ) - 49) / 12)

/-- Input clamping performed at the top of find_nearest_note
(autotune.c, lines 86-91). -/
noncomputable def clamp_input (input_freq : ℝ) : ℝ :=
  let f1 := if input_freq < FIRST_NOTE_FREQ then FIRST_NOTE_FREQ else input_freq
  if f1 > note_table (NUM_NOTES - 1) then note_table (NUM_NOTES - 1) else f1

/-- One iteration of the linear scan in find_nearest_note (autotune.c,
lines 98-112): acc is the pair (closest_distance, closest_freq). -/
noncomputable def scan_step (input_freq : ℝ) (acc : ℝ × ℝ) (i : ℕ) : ℝ × ℝ :=
  let note_freq := note_table i
  let distance := |input_freq - note_freq|
  if distance < acc.1 then (distance, note_freq) else acc

/-- find_nearest_note (autotune.c, lines 80-116): clamp the input, then scan
all 60 notes keeping the first strictly closer entry, starting from the
impossible distance 99999 and the default A4. -/
noncomputable def find_nearest_note (input_freq : ℝ) : ℝ :=
  ((List.range NUM_NOTES).foldl (scan_step (clamp_input input_freq))
    (99999, REFERENCE_A4)).2

/-- Auto-tune state struct (autotune.h, AutoTuneState). -/
structure AutoTuneState where
  current_freq : ℝ
  target_freq : ℝ
  last_input_freq : ℝ

/-- State set by autotune_init (autotune.c, lines 71-73). -/
noncomputable def autotune_init_state : AutoTuneState :=
  { current_freq := REFERENCE_A4, target_freq := REFERENCE_A4, last_input_freq := 0 }

/-- State set by reset_autotune (autotune.c, lines 174-181). -/
noncomputable def reset_autotune : AutoTuneState :=
  { current_freq := REFERENCE_A4, target_freq := REFERENCE_A4, last_input_freq := 0 }

/-- process_autotune (autotune.c, lines 122-168), with the global state made
explicit: returns the updated state and the output frequency. -/
noncomputable def process_autotune (state : AutoTuneState)
    (input_freq strength glide_rate : ℝ) : AutoTuneState × ℝ :=
  let freq_change := |input_freq - state.last_input_freq|
  let state1 :=
    if freq_change > 1 then
      { state with
          target_freq := find_nearest_note input_freq
          last_input_freq := input_freq }
    else state
  let difference := state1.target_freq - state1.current_freq
  let adjustment := difference * glide_rate
  let state2 := { state1 with current_freq := state1.current_freq + adjustment }
  let correction := state2.current_freq - input_freq
  let output_freq := input_freq + correction * strength
  (state2, output_freq)

/-- Oscillator struct (waveform.h): 32-bit phase and increment are kept as
naturals, reduced mod 2^32 where the C unsigned arithmetic wraps. -/
structure Oscillator where
  phase : ℕ
  phase_increment : ℕ
  waveform_type : ℕ

/-- Phase increment computed by oscillator_set_frequency (waveform.c, lines
90-91): (uint32_t)(frequency / SAMPLE_RATE * PHASE_SCALE). The C cast of a
nonnegative float to uint32_t truncates toward zero, i.e. takes the floor;
a negative argument is undefined behavior in C and is modelled as 0 by
Int.toNat. -/
noncomputable def oscillator_set_frequency (frequency : ℝ) : ℕ :=
  let cycles_per_sample := frequency / (SAMPLE_RATE : ℝ)
  (⌊cycles_per_sample * (PHASE_SCALE : ℝ)⌋).toNat

/-- Sine wavetable entry (waveform.c, lines 28-34). -/
noncomputable def sine_table (i : ℕ) : ℝ :=
  let position := (i : ℝ) / 256
  Real.sin (position * 2 * Real.pi)

/-- Square wavetable entry (waveform.c, lines 38-42). -/
noncomputable def square_table (i : ℕ) : ℝ :=
  if i < 128 then 1 else -1

/-- Sawtooth wavetable entry (waveform.c, line 46). -/
noncomputable def sawtooth_table (i : ℕ) : ℝ :=
  ((i : ℝ) / 256) * 2 - 1

/-- Triangle wavetable entry (waveform.c, lines 50-56). -/
noncomputable def triangle_table (i : ℕ) : ℝ :=
  if i < 128 then ((i : ℝ) / 256) * 4 - 1 else 3 - ((i : ℝ) / 256) * 4

/-- oscillator_generate_sample (waveform.c, lines 99-138): look up the table
selected by waveform_type at the top 8 bits of the phase (the switch default
yields silence), then advance the phase with unsigned wraparound. Returns the
sample and the updated oscillator. -/
noncomputable def oscillator_generate_sample (osc : Oscillator) : ℝ × Oscillator :=
  let table_index := (osc.phase >>> 24) % 256
  let sample : ℝ :=
    if osc.waveform_type = 0 then sine_table table_index
    else if osc.waveform_type = 1 then square_table table_index
    else if osc.waveform_type = 2 then sawtooth_table table_index
    else if osc.waveform_type = 3 then triangle_table table_index
    else 0
  (sample, { osc with phase := (osc.phase + osc.phase_increment) % PHASE_SCALE })

/-- Auto-tune correction strength used by the pipeline
(sound_profiles.c, AUTOTUNE_STRENGTH = 1.0f). -/
noncomputable def AUTOTUNE_STRENGTH : ℝ := 1

/-- Auto-tune glide rate used by the pipeline
(sound_profiles.c, AUTOTUNE_GLIDE = 0.3f). -/
noncomputable def AUTOTUNE_GLIDE : ℝ := 0.3

/-- Profile index of the auto-tune profile (sound_profiles.c). -/
def PROFILE_AUTOTUNE : ℕ := 0

/-- Truncation toward zero, the semantics of the C cast (int16_t)(x) applied
to a float whose value fits in the destination type. -/
noncomputable def trunc_toward_zero (x : ℝ) : ℤ :=
  if 0 ≤ x then ⌊x⌋ else ⌈x⌉

/-- process_audio_sample (sound_profiles.c, lines 241-354), with the globals
made explicit: profile dispatch, auto-tune, oscillator frequency update,
sample generation, int16 conversion by C cast, and buffer append. Returns
the updated auto-tune state, oscillator, and buffer. -/
noncomputable def process_audio_sample (raw_frequency : ℝ) (current_profile : ℕ)
    (state : AutoTuneState) (osc : Oscillator) (audio_buffer : List ℤ) :
    AutoTuneState × Oscillator × List ℤ :=
  let step1 :=
    if current_profile = PROFILE_AUTOTUNE then
      process_autotune state raw_frequency AUTOTUNE_STRENGTH AUTOTUNE_GLIDE
    else (state, raw_frequency)
  let corrected_frequency := step1.2
  let osc1 := { osc with phase_increment := oscillator_set_frequency corrected_frequency }
  let gen := oscillator_generate_sample osc1
  let sample_int16 := trunc_toward_zero (gen.1 * 32767)
  (step1.1, gen.2, audio_buffer ++ [sample_int16])

/-- Quantizer following the words of the spec, for the comparison in C1:
round(sample * 32767) clamped to the int16 range. -/
noncomputable def spec_round_clamp (sample : ℝ) : ℤ :=
  max (-32768) (min 32767 (round (sample * 32767)))

/-- Number of samples in one nominal cycle at a given frequency,
round(SAMPLE_RATE / frequency), as used in the cycle-closure property. -/
noncomputable def cycle_samples (frequency : ℝ) : ℕ :=
  (round ((SAMPLE_RATE : ℝ) / frequency)).toNat

/-- Oscillator state after generating n successive samples. -/
noncomputable def generate_steps (osc : Oscillator) : ℕ → Oscillator
  | 0 => osc
  | n + 1 => (oscillator_generate_sample (generate_steps osc n)).2

/-- Circular distance between two phase values on the 2^32 phase circle. -/
def phase_dist (a b : ℕ) : ℕ :=
  min ((PHASE_SCALE + a % PHASE_SCALE - b % PHASE_SCALE) % PHASE_SCALE)
    ((PHASE_SCALE + b % PHASE_SCALE - a % PHASE_SCALE) % PHASE_SCALE)

/-! Helper lemmas about the wavetables and the generated sample. -/

lemma sine_table_range (i : ℕ) : -1 ≤ sine_table i ∧ sine_table i ≤ 1 :=
  ⟨Real.neg_one_le_sin _, Real.sin_le_one _⟩

lemma square_table_range (i : ℕ) : -1 ≤ square_table i ∧ square_table i ≤ 1 := by
  unfold square_table
  split <;> norm_num

lemma sawtooth_table_range (i : ℕ) (h : i < 256) :
    -1 ≤ sawtooth_table i ∧ sawtooth_table i ≤ 1 := by
  unfold sawtooth_table
  have h255 : (i : ℝ) ≤ 255 := by exact_mod_cast Nat.le_of_lt_succ h
  have h0 : (0 : ℝ) ≤ (i : ℝ) := Nat.cast_nonneg i
  constructor <;> nlinarith

lemma triangle_table_range (i : ℕ) (h : i < 256) :
    -1 ≤ triangle_table i ∧ triangle_table i ≤ 1 := by
  unfold triangle_table
  have h255 : (i : ℝ) ≤ 255 := by exact_mod_cast Nat.le_of_lt_succ h
  have h0 : (0 : ℝ) ≤ (i : ℝ) := Nat.cast_nonneg i
  split
  · rename_i hlt
    have h127 : (i : ℝ) ≤ 127 := by exact_mod_cast Nat.le_of_lt_succ hlt
    constructor <;> nlinarith
  · rename_i hge
    have h128 : (128 : ℝ) ≤ (i : ℝ) := by exact_mod_cast Nat.le_of_not_lt hge
    constructor <;> nlinarith

lemma generate_sample_range (osc : Oscillator) :
    -1 ≤ (oscillator_generate_sample osc).1 ∧ (oscillator_generate_sample osc).1 ≤ 1 := by
  have hidx : (osc.phase >>> 24) % 256 < 256 := Nat.mod_lt _ (by norm_num)
  simp only [oscillator_generate_sample]
  split_ifs
  · exact sine_table_range _
  · exact square_table_range _
  · exact sawtooth_table_range _ hidx
  · exact triangle_table_range _ hidx
  · norm_num

/-- C7: after table generation, every entry of the four 256-entry wavetables
lies in the interval from -1 to 1, and consequently
oscillator_generate_sample returns a value in that interval for every
oscillator state and every waveform type. -/
theorem wavetables_and_samples_in_unit_range :
    (∀ i : Fin 256, -1 ≤ sine_table i ∧ sine_table i ≤ 1) ∧
    (∀ i : Fin 256, -1 ≤ square_table i ∧ square_table i ≤ 1) ∧
    (∀ i : Fin 256, -1 ≤ sawtooth_table i ∧ sawtooth_table i ≤ 1) ∧
    (∀ i : Fin 256, -1 ≤ triangle_table i ∧ triangle_table i ≤ 1) ∧
    (∀ osc : Oscillator,
      -1 ≤ (oscillator_generate_sample osc).1 ∧ (oscillator_generate_sample osc).1 ≤ 1) :=
  ⟨fun i => sine_table_range i, fun i => square_table_range i,
    fun i => sawtooth_table_range i i.isLt, fun i => triangle_table_range i i.isLt,
    fun osc => generate_sample_range osc⟩

/-- C10: for an oscillator whose waveform_type is none of the four defined
values, oscillator_generate_sample returns silence (0.0) rather than failing,
and still advances the phase by phase_increment (modulo 2^32). -/
theorem generate_sample_unknown_waveform_silence (osc : Oscillator)
    (h0 : osc.waveform_type ≠ 0) (h1 : osc.waveform_type ≠ 1)
    (h2 : osc.waveform_type ≠ 2) (h3 : osc.waveform_type ≠ 3) :
    (oscillator_generate_sample osc).1 = 0 ∧
    (oscillator_generate_sample osc).2.phase =
      (osc.phase + osc.phase_increment) % PHASE_SCALE := by
  simp [oscillator_generate_sample, h0, h1, h2, h3]

/-- Witness for C10 at the concrete oscillator with waveform_type 7. -/
theorem generate_sample_unknown_waveform_silence_witness :
    (oscillator_generate_sample ⟨0, 5, 7⟩).1 = 0 ∧
    (oscillator_generate_sample ⟨0, 5, 7⟩).2.phase = (0 + 5) % PHASE_SCALE :=
  generate_sample_unknown_waveform_silence ⟨0, 5, 7⟩
    (by decide) (by decide) (by decide) (by decide)

/-- C4: the note table realizes the equal-temperament formula
440 * 2 ^ ((i - 49) / 12), is strictly increasing from each entry to the
next, and its entry 49 is exactly 440. -/
theorem note_table_equal_temperament :
    (∀ i : Fin 60, note_table i = 440 * (2 : ℝ) ^ ((((i : ℕ) : ℝ) - 49) / 12)) ∧
    (∀ i : Fin 59, note_table i < note_table ((i : ℕ) + 1)) ∧
    note_table 49 = 440 := by
  refine ⟨fun i => by simp [note_table, REFERENCE_A4], fun i => ?_, ?_⟩
  · unfold note_table
    have hexp : ((((i : ℕ) : ℝ)) - 49) / 12 < ((((i : ℕ) + 1 : ℕ) : ℝ) - 49) / 12 := by
      push_cast
      linarith
    have h2 : ((2 : ℝ) ^ ((((i : ℕ) : ℝ)) - 49) / 12 : ℝ) = ((2 : ℝ) ^ ((((i : ℕ) : ℝ)) - 49) / 12 : ℝ) := rfl
    have := (Real.rpow_lt_rpow_left_iff (x := 2) (by norm_num)).mpr hexp
    unfold REFERENCE_A4
    nlinarith [Real.rpow_pos_of_pos (show (0:ℝ) < 2 by norm_num) ((((i : ℕ) : ℝ) - 49) / 12)]
  · unfold note_table REFERENCE_A4
    norm_num

/-- C6: for every nonnegative frequency, oscillator_set_frequency stores the
truncation (floor, not rounding) of frequency / 44100 * 2^32, so the stored
increment never exceeds the exact real-valued increment; below the sample
rate the stored value also fits in an unsigned 32-bit integer. -/
theorem set_frequency_truncation (frequency : ℝ) (h : 0 ≤ frequency) :
    ((oscillator_set_frequency frequency : ℕ) : ℝ)
        ≤ frequency / 44100 * 4294967296 ∧
    (frequency < 44100 → oscillator_set_frequency frequency < PHASE_SCALE) := by
  unfold oscillator_set_frequency SAMPLE_RATE PHASE_SCALE
  have hx : (0 : ℝ) ≤ frequency / 44100 * 4294967296 := by positivity
  have hfl : (0 : ℤ) ≤ ⌊frequency / 44100 * 4294967296⌋ := Int.floor_nonneg.mpr hx
  constructor
  · have h1 : ((⌊frequency / 44100 * 4294967296⌋.toNat : ℕ) : ℤ)
        = ⌊frequency / 44100 * 4294967296⌋ := Int.toNat_of_nonneg hfl
    have h2 : ((⌊frequency / 44100 * 4294967296⌋.toNat : ℕ) : ℝ)
        = ((⌊frequency / 44100 * 4294967296⌋ : ℤ) : ℝ) := by exact_mod_cast h1
    push_cast
    rw [h2]
    exact Int.floor_le _
  · intro hlt
    have h1 : frequency / 44100 < 1 := by
      rw [div_lt_one (by norm_num)]
      exact hlt
    have h2 : frequency / 44100 * 4294967296 < 4294967296 := by nlinarith
    have h3 : ⌊frequency / 44100 * 4294967296⌋ < (4294967296 : ℤ) :=
      Int.floor_lt.mpr (by exact_mod_cast h2)
    have hcast : frequency / ((44100 : ℕ) : ℝ) * ((4294967296 : ℕ) : ℝ)
        = frequency / 44100 * 4294967296 := by norm_num
    show (⌊frequency / ((44100 : ℕ) : ℝ) * ((4294967296 : ℕ) : ℝ)⌋).toNat < 4294967296
    rw [hcast]
    omega

/-- Witness for C6 at the concrete frequency 440 Hz. -/
theorem set_frequency_truncation_witness :
    ((0 : ℝ) ≤ 440) ∧
    (((oscillator_set_frequency 440 : ℕ) : ℝ) ≤ 440 / 44100 * 4294967296 ∧
      ((440 : ℝ) < 44100 → oscillator_set_frequency 440 < PHASE_SCALE)) :=
  ⟨by norm_num, set_frequency_truncation 440 (by norm_num)⟩

/-! Bounds for the int16 cast on in-range arguments. -/

lemma trunc_toward_zero_range (x : ℝ) (h1 : -32767 ≤ x) (h2 : x ≤ 32767) :
    -32768 ≤ trunc_toward_zero x ∧ trunc_toward_zero x ≤ 32767 := by
  unfold trunc_toward_zero
  split
  · rename_i hx
    refine ⟨?_, ?_⟩
    · have h3 : (0 : ℤ) ≤ ⌊x⌋ := Int.floor_nonneg.mpr hx
      omega
    · have h3 : (⌊x⌋ : ℝ) ≤ 32767 := le_trans (Int.floor_le x) h2
      exact_mod_cast h3
  · rename_i hx
    refine ⟨?_, ?_⟩
    · have h3 : (-32767 : ℝ) ≤ (⌈x⌉ : ℝ) := le_trans h1 (Int.le_ceil x)
      have h4 : (-32767 : ℤ) ≤ ⌈x⌉ := by exact_mod_cast h3
      omega
    · have h3 : ⌈x⌉ ≤ (0 : ℤ) := Int.ceil_le.mpr (by push_cast; exact le_of_not_le hx)
      omega

/-- C1 (amended): in the per-sample pipeline step the value appended to the
audio buffer is the truncation toward zero of sample * 32767 (the semantics
of the C int16_t cast), not its rounding; no clamping is performed, and
because the sample lies in [-1, 1] the appended value lies in the int16
range [-32768, 32767] anyway. -/
theorem process_audio_sample_quantization (raw_frequency : ℝ)
    (current_profile : ℕ) (state : AutoTuneState) (osc : Oscillator)
    (audio_buffer : List ℤ) :
    ∃ sample : ℝ,
      sample = (oscillator_generate_sample (Oscillator.mk osc.phase
        (oscillator_set_frequency
          ((if current_profile = PROFILE_AUTOTUNE then
              process_autotune state raw_frequency AUTOTUNE_STRENGTH AUTOTUNE_GLIDE
            else (state, raw_frequency)).2))
        osc.waveform_type)).1 ∧
      (process_audio_sample raw_frequency current_profile state osc audio_buffer).2.2
        = audio_buffer ++ [trunc_toward_zero (sample * 32767)] ∧
      -32768 ≤ trunc_toward_zero (sample * 32767) ∧
      trunc_toward_zero (sample * 32767) ≤ 32767 := by
  refine ⟨_, rfl, rfl, ?_⟩
  have hr := generate_sample_range (Oscillator.mk osc.phase
    (oscillator_set_frequency
      ((if current_profile = PROFILE_AUTOTUNE then
          process_autotune state raw_frequency AUTOTUNE_STRENGTH AUTOTUNE_GLIDE
        else (state, raw_frequency)).2))
    osc.waveform_type)
  exact trunc_toward_zero_range _ (by nlinarith [hr.1, hr.2]) (by nlinarith [hr.1, hr.2])

/-- C1 counterexample: at oscillator phase 192 * 2^24 with the sawtooth
waveform the generated sample is 1/2, so sample * 32767 = 16383.5; the code
appends the truncation 16383, while the round-then-clamp formula of the
claim gives 16384. -/
theorem process_audio_sample_round_clamp_counterexample :
    (process_audio_sample 100 1 ⟨440, 440, 0⟩ ⟨3221225472, 0, 2⟩ []).2.2
      = [(16383 : ℤ)] ∧
    spec_round_clamp ((oscillator_generate_sample
      { phase := 3221225472, phase_increment := oscillator_set_frequency 100,
        waveform_type := 2 }).1) = 16384 := by
  have hgen : ∀ inc : ℕ, (oscillator_generate_sample ⟨3221225472, inc, 2⟩).1 = 1 / 2 := by
    intro inc
    simp only [oscillator_generate_sample]
    norm_num [Nat.shiftRight_eq_div_pow, sawtooth_table]
  constructor
  · have hstep : (process_audio_sample 100 1 ⟨440, 440, 0⟩ ⟨3221225472, 0, 2⟩ []).2.2
        = [trunc_toward_zero ((1 / 2 : ℝ) * 32767)] := by
      simp only [process_audio_sample, PROFILE_AUTOTUNE]
      norm_num [hgen]
    rw [hstep]
    unfold trunc_toward_zero
    rw [if_pos (by norm_num)]
    have hfl : ⌊(1 / 2 : ℝ) * 32767⌋ = 16383 := by
      rw [Int.floor_eq_iff]
      constructor <;> norm_num
    rw [hfl]
  · rw [hgen]
    unfold spec_round_clamp
    have hrd : round ((1 / 2 : ℝ) * 32767) = 16384 := by
      rw [round_eq]
      rw [show (1 / 2 : ℝ) * 32767 + 1 / 2 = 16384 by norm_num]
      exact_mod_cast Int.floor_intCast (16384 : ℤ)
    rw [hrd]
    norm_num

/-- C3: for any state and any input moving by more than 1 Hz from the
remembered input, a single process_autotune call with strength 1 and glide
rate 1 returns exactly the nearest note of the input (instant snap). -/
theorem process_autotune_instant_snap (state : AutoTuneState) (input_freq : ℝ)
    (h : |input_freq - state.last_input_freq| > 1) :
    (process_autotune state input_freq 1 1).2 = find_nearest_note input_freq := by
  simp only [process_autotune]
  split_ifs
  dsimp only
  ring

/-- Witness for C3 at the freshly initialized state and input 440 Hz. -/
theorem process_autotune_instant_snap_witness :
    (process_autotune autotune_init_state 440 1 1).2 = find_nearest_note 440 :=
  process_autotune_instant_snap autotune_init_state 440 (by
    simp only [autotune_init_state]
    rw [sub_zero, abs_of_nonneg (by norm_num : (0 : ℝ) ≤ 440)]
    norm_num)

/-- C9 counterexample: after reset the input 1/2 is nonzero and yet does not
exceed the 1 Hz retarget threshold: the call leaves last_input_freq at 0 and
performs no fresh nearest-note lookup (the target stays at 440). -/
theorem reset_autotune_retarget_counterexample :
    ((1 : ℝ) / 2 ≠ 0) ∧
    ¬ (|(1 : ℝ) / 2 - reset_autotune.last_input_freq| > 1) ∧
    (process_autotune reset_autotune (1 / 2) 1 1).1.last_input_freq = 0 ∧
    (process_autotune reset_autotune (1 / 2) 1 1).1.target_freq = 440 := by
  have hcond : ¬ (|(1 : ℝ) / 2 - reset_autotune.last_input_freq| > 1) := by
    simp only [reset_autotune]
    rw [sub_zero, abs_of_nonneg (by norm_num : (0 : ℝ) ≤ 1 / 2)]
    norm_num
  have habs : |(1 : ℝ) / 2 - (0 : ℝ)| = 1 / 2 := by
    rw [sub_zero, abs_of_nonneg (by norm_num : (0 : ℝ) ≤ 1 / 2)]
  refine ⟨by norm_num, hcond, ?_, ?_⟩ <;>
    norm_num [process_autotune, reset_autotune, REFERENCE_A4, habs, abs_of_nonneg]

/-- C9 (amended): reset_autotune sets current_freq and target_freq to 440.0
and last_input_freq to 0.0; because last_input_freq is forced to 0, the next
process_autotune call exceeds the 1 Hz retarget threshold and performs a
fresh nearest-note lookup for every next input of absolute value greater
than 1 Hz (inputs of absolute value at most 1 Hz, not only exactly 0, do
not retrigger the lookup). -/
theorem reset_autotune_forces_retarget (input_freq strength glide_rate : ℝ)
    (h : 1 < |input_freq|) :
    reset_autotune.current_freq = 440 ∧
    reset_autotune.target_freq = 440 ∧
    reset_autotune.last_input_freq = 0 ∧
    |input_freq - reset_autotune.last_input_freq| > 1 ∧
    (process_autotune reset_autotune input_freq strength glide_rate).1.target_freq
      = find_nearest_note input_freq ∧
    (process_autotune reset_autotune input_freq strength glide_rate).1.last_input_freq
      = input_freq := by
  have hcond : |input_freq - reset_autotune.last_input_freq| > 1 := by
    simp only [reset_autotune]
    rw [sub_zero]
    exact h
  refine ⟨by simp [reset_autotune, REFERENCE_A4], by simp [reset_autotune, REFERENCE_A4],
    by simp [reset_autotune], hcond, ?_, ?_⟩ <;>
    simp [process_autotune, hcond]

/-- Witness for C9 (amended) at the concrete input 440 Hz. -/
theorem reset_autotune_forces_retarget_witness :
    1 < |(440 : ℝ)| ∧
    (process_autotune reset_autotune 440 1 1).1.target_freq
      = find_nearest_note 440 := by
  have h : 1 < |(440 : ℝ)| := by
    rw [abs_of_nonneg (by norm_num : (0 : ℝ) ≤ 440)]
    norm_num
  exact ⟨h, (reset_autotune_forces_retarget 440 1 1 h).2.2.2.2.1⟩

/-! Specification of the linear scan of find_nearest_note: the fold over the
first n indices either keeps the impossible initial accumulator (when no
distance beats 99999) or returns the first index achieving the minimum
distance seen so far. -/

lemma scan_fold_spec (x : ℝ) (n : ℕ) :
    ((∀ i, i < n → (99999 : ℝ) ≤ |x - note_table i|) ∧
      (List.range n).foldl (scan_step x) (99999, REFERENCE_A4)
        = (99999, REFERENCE_A4)) ∨
    (∃ k, k < n ∧
      (List.range n).foldl (scan_step x) (99999, REFERENCE_A4)
        = (|x - note_table k|, note_table k) ∧
      |x - note_table k| < 99999 ∧
      (∀ j, j < n → |x - note_table k| ≤ |x - note_table j|) ∧
      (∀ j, j < k → |x - note_table k| < |x - note_table j|)) := by
  induction n with
  | zero =>
    left
    exact ⟨fun i hi => absurd hi (Nat.not_lt_zero i), rfl⟩
  | succ n ih =>
    rw [List.range_succ, List.foldl_append, List.foldl_cons, List.foldl_nil]
    rcases ih with ⟨hall, heq⟩ | ⟨k, hk, heq, hlt, hmin, hfirst⟩
    · rw [heq]
      by_cases hn : |x - note_table n| < 99999
      · right
        refine ⟨n, Nat.lt_succ_self n, ?_, hn, ?_, ?_⟩
        · simp [scan_step, hn]
        · intro j hj
          rcases Nat.lt_succ_iff_lt_or_eq.mp hj with hj | hj
          · exact le_trans (le_of_lt hn) (hall j hj)
          · subst hj
            exact le_refl _
        · intro j hj
          exact lt_of_lt_of_le hn (hall j hj)
      · left
        refine ⟨fun i hi => ?_, by simp [scan_step, hn]⟩
        rcases Nat.lt_succ_iff_lt_or_eq.mp hi with hi | hi
        · exact hall i hi
        · subst hi
          exact le_of_not_lt hn
    · rw [heq]
      by_cases hn : |x - note_table n| < |x - note_table k|
      · right
        refine ⟨n, Nat.lt_succ_self n, by simp [scan_step, hn], lt_trans hn hlt, ?_, ?_⟩
        · intro j hj
          rcases Nat.lt_succ_iff_lt_or_eq.mp hj with hj | hj
          · exact le_trans (le_of_lt hn) (hmin j hj)
          · subst hj
            exact le_refl _
        · intro j hj
          exact lt_of_lt_of_le hn (hmin j hj)
      · right
        refine ⟨k, lt_trans hk (Nat.lt_succ_self n), by simp [scan_step, hn], hlt, ?_, hfirst⟩
        intro j hj
        rcases Nat.lt_succ_iff_lt_or_eq.mp hj with hj | hj
        · exact hmin j hj
        · subst hj
          exact le_of_not_lt hn

/-! Range of the clamped input and coarse bounds on the note table ends. -/

lemma note_table_zero_pos : 0 < note_table 0 := by
  unfold note_table REFERENCE_A4
  positivity

lemma note_table_zero_le : note_table 0 ≤ 440 := by
  unfold note_table REFERENCE_A4
  have h2 : (2 : ℝ) ^ (((((0 : ℕ) : ℝ)) - 49) / 12) ≤ 1 := by
    apply Real.rpow_le_one_of_one_le_of_nonpos (by norm_num)
    norm_num
  nlinarith [Real.rpow_pos_of_pos (show (0 : ℝ) < 2 by norm_num) (((((0 : ℕ) : ℝ)) - 49) / 12)]

lemma note_table_top_le : note_table 59 ≤ 880 := by
  unfold note_table REFERENCE_A4
  have h1 : (2 : ℝ) ^ ((((59 : ℕ) : ℝ) - 49) / 12) ≤ (2 : ℝ) ^ (1 : ℝ) := by
    rw [Real.rpow_le_rpow_left_iff (by norm_num : (1 : ℝ) < 2)]
    norm_num
  rw [Real.rpow_one] at h1
  nlinarith

lemma note_table_top_ge : (440 : ℝ) ≤ note_table 59 := by
  unfold note_table REFERENCE_A4
  have h1 : (2 : ℝ) ^ (0 : ℝ) ≤ (2 : ℝ) ^ ((((59 : ℕ) : ℝ) - 49) / 12) := by
    rw [Real.rpow_le_rpow_left_iff (by norm_num : (1 : ℝ) < 2)]
    norm_num
  rw [Real.rpow_zero] at h1
  nlinarith

lemma clamp_input_mem (f : ℝ) :
    FIRST_NOTE_FREQ ≤ clamp_input f ∧ clamp_input f ≤ note_table 59 := by
  have h59 : FIRST_NOTE_FREQ ≤ note_table 59 := by
    have := note_table_top_ge
    unfold FIRST_NOTE_FREQ
    linarith
  unfold clamp_input NUM_NOTES
  norm_num
  split_ifs <;> constructor <;> linarith

/-- C2: find_nearest_note always returns an entry of the 60-entry note
table, namely the entry of the lowest index achieving the minimum absolute
distance to the clamped input: every other entry is either strictly farther
away, or at exactly equal distance with an index not below the returned one
(the strict less-than scan makes ties resolve toward the lower note). -/
theorem find_nearest_note_first_minimum (f : ℝ) :
    ∃ k : Fin 60, find_nearest_note f = note_table k ∧
      ∀ j : Fin 60,
        |clamp_input f - note_table k| < |clamp_input f - note_table j| ∨
        (|clamp_input f - note_table k| = |clamp_input f - note_table j| ∧ k ≤ j) := by
  obtain ⟨hlo, hhi⟩ := clamp_input_mem f
  have hlo2 : (65.41 : ℝ) ≤ clamp_input f := by
    unfold FIRST_NOTE_FREQ at hlo
    exact_mod_cast hlo
  have hd0 : |clamp_input f - note_table 0| < 99999 := by
    rw [abs_lt]
    constructor
    · nlinarith [note_table_zero_le]
    · nlinarith [note_table_zero_pos, note_table_top_le]
  rcases scan_fold_spec (clamp_input f) 60 with ⟨hall, _⟩ | ⟨k, hk, heq, _, hmin, hfirst⟩
  · exact absurd (hall 0 (by norm_num)) (not_le.mpr hd0)
  · refine ⟨⟨k, hk⟩, ?_, ?_⟩
    · unfold find_nearest_note NUM_NOTES
      rw [heq]
    · intro j
      by_cases hjk : |clamp_input f - note_table k| = |clamp_input f - note_table j|
      · right
        refine ⟨hjk, ?_⟩
        rw [Fin.le_def]
        show k ≤ (j : ℕ)
        by_contra hnle
        exact absurd hjk (ne_of_lt (hfirst j (Nat.lt_of_not_le hnle)))
      · left
        exact lt_of_le_of_ne (hmin j j.isLt) hjk

/-- State evolution of repeated process_autotune calls with fixed arguments
(constant input frequency, strength and glide rate). -/
noncomputable def autotune_steps (input_freq strength glide_rate : ℝ)
    (state : AutoTuneState) : ℕ → AutoTuneState
  | 0 => state
  | n + 1 => (process_autotune
      (autotune_steps input_freq strength glide_rate state n)
      input_freq strength glide_rate).1

lemma process_autotune_last_close (state : AutoTuneState) (f s g : ℝ) :
    |f - (process_autotune state f s g).1.last_input_freq| ≤ 1 := by
  simp only [process_autotune]
  split_ifs with h
  · dsimp only
    simp
  · exact le_of_not_lt h

lemma process_autotune_step_no_retarget (state : AutoTuneState) (f s g : ℝ)
    (h : ¬ |f - state.last_input_freq| > 1) :
    (process_autotune state f s g).1 =
      AutoTuneState.mk
        (state.current_freq + (state.target_freq - state.current_freq) * g)
        state.target_freq state.last_input_freq := by
  simp only [process_autotune]
  split_ifs
  rfl

lemma autotune_steps_stable (f s g : ℝ) (state : AutoTuneState) (n : ℕ) :
    |f - (autotune_steps f s g state (n + 1)).last_input_freq| ≤ 1 ∧
    (autotune_steps f s g state (n + 1)).target_freq
      = (autotune_steps f s g state 1).target_freq := by
  induction n with
  | zero => exact ⟨process_autotune_last_close state f s g, rfl⟩
  | succ n ih =>
    obtain ⟨h1, h2⟩ := ih
    have hstep := process_autotune_step_no_retarget
      (autotune_steps f s g state (n + 1)) f s g (not_lt.mpr h1)
    constructor
    · exact process_autotune_last_close (autotune_steps f s g state (n + 1)) f s g
    · show (process_autotune (autotune_steps f s g state (n + 1)) f s g).1.target_freq
        = (autotune_steps f s g state 1).target_freq
      rw [hstep]
      exact h2

lemma autotune_steps_dev (f s g : ℝ) (state : AutoTuneState) (n : ℕ) :
    (autotune_steps f s g state (n + 2)).current_freq
        - (autotune_steps f s g state 1).target_freq
      = (1 - g) * ((autotune_steps f s g state (n + 1)).current_freq
        - (autotune_steps f s g state 1).target_freq) := by
  obtain ⟨h1, h2⟩ := autotune_steps_stable f s g state n
  have hstep := process_autotune_step_no_retarget
    (autotune_steps f s g state (n + 1)) f s g (not_lt.mpr h1)
  show (process_autotune (autotune_steps f s g state (n + 1)) f s g).1.current_freq
      - (autotune_steps f s g state 1).target_freq = _
  rw [hstep]
  dsimp only
  rw [h2]
  ring

lemma autotune_steps_dev_pow (f s g : ℝ) (state : AutoTuneState) (n : ℕ) :
    (autotune_steps f s g state (n + 1)).current_freq
        - (autotune_steps f s g state 1).target_freq
      = (1 - g) ^ n * ((autotune_steps f s g state 1).current_freq
        - (autotune_steps f s g state 1).target_freq) := by
  induction n with
  | zero => simp
  | succ n ih =>
    rw [autotune_steps_dev f s g state n, ih]
    ring

/-- C5: with a constant input frequency and a glide rate strictly between 0
and 1, once the first call has fixed the target, every further call
contracts the signed deviation of current_freq from target_freq by the
exact factor 1 - g: the distance never increases, strictly decreases
whenever current_freq differs from the target (so it never overshoots or
oscillates, the deviation keeping its sign), and for every positive
epsilon a bounded number of calls brings the distance below epsilon. -/
theorem process_autotune_glide_convergence (state : AutoTuneState)
    (f s g : ℝ) (hg0 : 0 < g) (hg1 : g < 1) :
    (∀ n : ℕ, (autotune_steps f s g state (n + 1)).target_freq
      = (autotune_steps f s g state 1).target_freq) ∧
    (∀ n : ℕ, (autotune_steps f s g state (n + 2)).current_freq
        - (autotune_steps f s g state 1).target_freq
      = (1 - g) * ((autotune_steps f s g state (n + 1)).current_freq
        - (autotune_steps f s g state 1).target_freq)) ∧
    (∀ n : ℕ, |(autotune_steps f s g state (n + 2)).current_freq
        - (autotune_steps f s g state 1).target_freq|
      ≤ |(autotune_steps f s g state (n + 1)).current_freq
        - (autotune_steps f s g state 1).target_freq|) ∧
    (∀ n : ℕ, (autotune_steps f s g state (n + 1)).current_freq
        ≠ (autotune_steps f s g state 1).target_freq →
      |(autotune_steps f s g state (n + 2)).current_freq
        - (autotune_steps f s g state 1).target_freq|
      < |(autotune_steps f s g state (n + 1)).current_freq
        - (autotune_steps f s g state 1).target_freq|) ∧
    (∀ ε : ℝ, 0 < ε → ∃ N : ℕ, ∀ n : ℕ, N ≤ n →
      |(autotune_steps f s g state (n + 1)).current_freq
        - (autotune_steps f s g state 1).target_freq| < ε) := by
  have habs : ∀ n : ℕ, |(autotune_steps f s g state (n + 2)).current_freq
      - (autotune_steps f s g state 1).target_freq|
      = (1 - g) * |(autotune_steps f s g state (n + 1)).current_freq
      - (autotune_steps f s g state 1).target_freq| := by
    intro n
    rw [autotune_steps_dev f s g state n, abs_mul, abs_of_nonneg (by linarith : (0:ℝ) ≤ 1 - g)]
  refine ⟨fun n => (autotune_steps_stable f s g state n).2,
    fun n => autotune_steps_dev f s g state n, fun n => ?_, fun n => ?_, fun ε hε => ?_⟩
  · rw [habs n]
    have h0 : 0 ≤ |(autotune_steps f s g state (n + 1)).current_freq
        - (autotune_steps f s g state 1).target_freq| := abs_nonneg _
    nlinarith
  · intro hne
    rw [habs n]
    have h0 : 0 < |(autotune_steps f s g state (n + 1)).current_freq
        - (autotune_steps f s g state 1).target_freq| :=
      abs_pos.mpr (sub_ne_zero.mpr hne)
    nlinarith
  · set D := |(autotune_steps f s g state 1).current_freq
      - (autotune_steps f s g state 1).target_freq| with hD
    have hDpos : 0 ≤ D := abs_nonneg _
    obtain ⟨N, hN⟩ := exists_pow_lt_of_lt_one
      (show (0:ℝ) < ε / (D + 1) by positivity) (show 1 - g < 1 by linarith)
    refine ⟨N, fun n hn => ?_⟩
    have hpow : (1 - g) ^ n ≤ (1 - g) ^ N :=
      pow_le_pow_of_le_one (by linarith) (by linarith) hn
    have habsn : |(autotune_steps f s g state (n + 1)).current_freq
        - (autotune_steps f s g state 1).target_freq| = (1 - g) ^ n * D := by
      rw [autotune_steps_dev_pow f s g state n, abs_mul,
        abs_of_nonneg (pow_nonneg (by linarith : (0:ℝ) ≤ 1 - g) n)]
    rw [habsn]
    have hpownn : (0:ℝ) ≤ (1 - g) ^ n := pow_nonneg (by linarith) n
    rcases eq_or_lt_of_le hDpos with hD0 | hD0
    · rw [← hD0, mul_zero]
      exact hε
    · have h1 : (1 - g) ^ n * D ≤ (1 - g) ^ N * D := by nlinarith
      have h2 : (1 - g) ^ N * D < ε / (D + 1) * D := mul_lt_mul_of_pos_right hN hD0
      have h3 : ε / (D + 1) * D < ε := by
        rw [div_mul_eq_mul_div, div_lt_iff₀ (by linarith : (0:ℝ) < D + 1)]
        nlinarith
      linarith

/-- Witness for C5 at the initial state, input 440 Hz, strength 1 and glide
rate 1/2. -/
theorem process_autotune_glide_convergence_witness :
    (0:ℝ) < 1/2 ∧ (1:ℝ)/2 < 1 ∧
    ∀ n : ℕ, (autotune_steps 440 1 (1/2) autotune_init_state (n + 1)).target_freq
      = (autotune_steps 440 1 (1/2) autotune_init_state 1).target_freq :=
  ⟨by norm_num, by norm_num,
    (process_autotune_glide_convergence autotune_init_state 440 1 (1/2)
      (by norm_num) (by norm_num)).1⟩

/-! Helper lemmas for the cycle-closure property of the phase accumulator. -/

lemma generate_steps_increment (osc : Oscillator) (n : ℕ) :
    (generate_steps osc n).phase_increment = osc.phase_increment := by
  induction n with
  | zero => rfl
  | succ n ih =>
    show (oscillator_generate_sample (generate_steps osc n)).2.phase_increment
      = osc.phase_increment
    simp only [oscillator_generate_sample]
    exact ih

lemma generate_steps_phase (osc : Oscillator) (n : ℕ) :
    (generate_steps osc (n + 1)).phase
      = (osc.phase + (n + 1) * osc.phase_increment) % PHASE_SCALE := by
  induction n with
  | zero =>
    show (osc.phase + osc.phase_increment) % PHASE_SCALE
      = (osc.phase + 1 * osc.phase_increment) % PHASE_SCALE
    rw [one_mul]
  | succ n ih =>
    show (oscillator_generate_sample (generate_steps osc (n + 1))).2.phase = _
    simp only [oscillator_generate_sample]
    rw [generate_steps_increment, ih, Nat.mod_add_mod]
    congr 1
    ring

lemma osf_real_bounds (frequency : ℝ) (h : 0 < frequency) :
    frequency / 44100 * 4294967296 - 1 < (oscillator_set_frequency frequency : ℝ) ∧
    (oscillator_set_frequency frequency : ℝ) ≤ frequency / 44100 * 4294967296 := by
  have hx : (0 : ℝ) ≤ frequency / 44100 * 4294967296 := by positivity
  have hfl : (0 : ℤ) ≤ ⌊frequency / 44100 * 4294967296⌋ := Int.floor_nonneg.mpr hx
  have hcast : ((oscillator_set_frequency frequency : ℕ) : ℝ)
      = ((⌊frequency / 44100 * 4294967296⌋ : ℤ) : ℝ) := by
    unfold oscillator_set_frequency SAMPLE_RATE PHASE_SCALE
    show ((⌊frequency / ((44100 : ℕ) : ℝ) * ((4294967296 : ℕ) : ℝ)⌋.toNat : ℕ) : ℝ) = _
    have hargs : frequency / ((44100 : ℕ) : ℝ) * ((4294967296 : ℕ) : ℝ)
        = frequency / 44100 * 4294967296 := by norm_num
    rw [hargs]
    exact_mod_cast Int.toNat_of_nonneg hfl
  rw [hcast]
  constructor
  · linarith [Int.lt_floor_add_one (frequency / 44100 * 4294967296)]
  · exact Int.floor_le _

lemma cycle_samples_real_bounds (frequency : ℝ)
    (hlo : 65.41 ≤ frequency) (hhi : frequency ≤ 2093) :
    (44100 : ℝ) / frequency - 1 / 2 ≤ ((cycle_samples frequency : ℕ) : ℝ) ∧
    ((cycle_samples frequency : ℕ) : ℝ) ≤ (44100 : ℝ) / frequency + 1 / 2 ∧
    1 ≤ cycle_samples frequency := by
  have hfpos : (0 : ℝ) < frequency := by linarith
  have hN21 : (21 : ℝ) ≤ 44100 / frequency := by
    rw [le_div_iff₀ hfpos]
    nlinarith
  have hround := abs_sub_round ((44100 : ℝ) / frequency)
  rw [abs_le] at hround
  have h1 : (44100 : ℝ) / frequency - 1 / 2 ≤ (round ((44100 : ℝ) / frequency) : ℝ) := by
    linarith [hround.2]
  have h2 : (round ((44100 : ℝ) / frequency) : ℝ) ≤ (44100 : ℝ) / frequency + 1 / 2 := by
    linarith [hround.1]
  have hpos : (1 : ℤ) ≤ round ((44100 : ℝ) / frequency) := by
    have : (1 : ℝ) ≤ (round ((44100 : ℝ) / frequency) : ℝ) := by linarith
    exact_mod_cast this
  have hcast : ((cycle_samples frequency : ℕ) : ℝ)
      = ((round ((44100 : ℝ) / frequency) : ℤ) : ℝ) := by
    unfold cycle_samples SAMPLE_RATE
    have hargs : ((44100 : ℕ) : ℝ) / frequency = (44100 : ℝ) / frequency := by norm_num
    rw [hargs]
    exact_mod_cast Int.toNat_of_nonneg (by linarith : (0 : ℤ) ≤ round ((44100 : ℝ) / frequency))
  refine ⟨by rw [hcast]; linarith, by rw [hcast]; linarith, ?_⟩
  unfold cycle_samples SAMPLE_RATE
  have hargs : ((44100 : ℕ) : ℝ) / frequency = (44100 : ℝ) / frequency := by norm_num
  rw [hargs]
  omega

/-- C8: at any frequency in the supported range and from any starting phase,
after generating round(44100 / frequency) successive samples the 32-bit
phase accumulator (advancing by phase_increment modulo 2^32 each sample)
lands within one phase_increment of its starting value on the phase
circle. -/
theorem oscillator_cycle_closure (frequency : ℝ) (p0 w : ℕ)
    (hlo : 65.41 ≤ frequency) (hhi : frequency ≤ 2093) (hp : p0 < PHASE_SCALE) :
    phase_dist
      (generate_steps (Oscillator.mk p0 (oscillator_set_frequency frequency) w)
        (cycle_samples frequency)).phase p0
      ≤ oscillator_set_frequency frequency := by
  obtain ⟨hn1, hn2, hn3⟩ := cycle_samples_real_bounds frequency hlo hhi
  have hfpos : (0 : ℝ) < frequency := by linarith
  obtain ⟨hi1, hi2⟩ := osf_real_bounds frequency hfpos
  set n := cycle_samples frequency with hns
  set inc := oscillator_set_frequency frequency with hincs
  set E := frequency / 44100 * 4294967296 with hEdef
  set N := (44100 : ℝ) / frequency with hNdef
  have hElo : (6000000 : ℝ) ≤ E := by
    rw [hEdef]
    rw [div_mul_eq_mul_div, le_div_iff₀ (by norm_num : (0 : ℝ) < 44100)]
    nlinarith
  have hEhi : E ≤ (204000000 : ℝ) := by
    rw [hEdef]
    rw [div_mul_eq_mul_div, div_le_iff₀ (by norm_num : (0 : ℝ) < 44100)]
    nlinarith
  have hNE : N * E = 4294967296 := by
    rw [hEdef, hNdef]
    field_simp
    ring
  have hN675 : N ≤ 675 := by
    rw [hNdef, div_le_iff₀ hfpos]
    nlinarith
  have hN21 : (21 : ℝ) ≤ N := by
    rw [hNdef, le_div_iff₀ hfpos]
    nlinarith
  have hIpos : (0 : ℝ) < (inc : ℝ) := by linarith
  have hnn : (0 : ℝ) ≤ (n : ℝ) := Nat.cast_nonneg n
  have hupper : (n : ℝ) * (inc : ℝ) ≤ 4294967296 + (inc : ℝ) := by
    have h1 : (n : ℝ) * (inc : ℝ) ≤ (N + 1 / 2) * E :=
      mul_le_mul hn2 hi2 (le_of_lt hIpos) (by linarith)
    have h2 : (N + 1 / 2) * E = 4294967296 + E / 2 := by
      rw [add_mul, hNE]
      ring
    linarith
  have hlower : (4294967296 : ℝ) ≤ (n : ℝ) * (inc : ℝ) + (inc : ℝ) := by
    have h1 : (N - 1 / 2) * (E - 1) ≤ (n : ℝ) * (inc : ℝ) :=
      mul_le_mul hn1 (le_of_lt hi1) (by linarith) hnn
    have h2 : (N - 1 / 2) * (E - 1) = N * E - N - E / 2 + 1 / 2 := by ring
    rw [hNE] at h2
    linarith
  have hincM : inc < PHASE_SCALE := by
    have h1 : (inc : ℝ) < 4294967296 := by linarith
    have h2 : inc < 4294967296 := by exact_mod_cast h1
    unfold PHASE_SCALE
    exact h2
  have hnat_up : n * inc ≤ 4294967296 + inc := by
    have h1 : ((n * inc : ℕ) : ℝ) ≤ ((4294967296 + inc : ℕ) : ℝ) := by
      push_cast
      linarith
    exact_mod_cast h1
  have hnat_lo : 4294967296 ≤ n * inc + inc := by
    have h1 : ((4294967296 : ℕ) : ℝ) ≤ ((n * inc + inc : ℕ) : ℝ) := by
      push_cast
      linarith
    exact_mod_cast h1
  obtain ⟨m, hm⟩ : ∃ m, n = m + 1 := ⟨n - 1, by omega⟩
  have hph : (generate_steps (Oscillator.mk p0 inc w) n).phase
      = (p0 + n * inc) % PHASE_SCALE := by
    rw [hm]
    exact generate_steps_phase (Oscillator.mk p0 inc w) m
  rw [hph]
  unfold phase_dist PHASE_SCALE
  unfold PHASE_SCALE at hp hincM
  generalize n * inc = A at hnat_up hnat_lo ⊢
  omega

/-- Witness for C8 at the concrete frequency 440 Hz from starting phase 0. -/
theorem oscillator_cycle_closure_witness :
    (65.41 : ℝ) ≤ 440 ∧ (440 : ℝ) ≤ 2093 ∧ (0 : ℕ) < PHASE_SCALE ∧
    phase_dist
      (generate_steps (Oscillator.mk 0 (oscillator_set_frequency 440) 0)
        (cycle_samples 440)).phase 0
      ≤ oscillator_set_frequency 440 :=
  ⟨by norm_num, by norm_num, by norm_num [PHASE_SCALE],
    oscillator_cycle_closure 440 0 0 (by norm_num) (by norm_num)
      (by norm_num [PHASE_SCALE])⟩
